import Mathlib

/-!
Verification of the voice I/O subsystem (TTS / batch STT / Live STT) of the
espidf-chat firmware, as a shallow embedding in Lean 4.

The embedded code comes from:
  * src/main/tts.c        — ring buffer, playback upmix, speak entry point
  * src/main/stt.c        — batch STT recording/transcription state machine
  * src/main/live_stt.c   — Deepgram Live STT session and WebSocket events

Machine integers (size_t, int16_t, int32_t) are modelled as Nat/Int; all the
modelled arithmetic stays far below any overflow boundary except the int16
saturation in the playback upmix, which the source performs explicitly in
32-bit arithmetic and which is modelled on Int.
-/

/-- The ESP-IDF error codes that the modelled functions return. -/
inductive EspErr where
  | ok
  | fail
  | invalidArg
  | invalidState
  | noMem
deriving DecidableEq, Repr

/-! ## Live STT (src/main/live_stt.c) -/

/-- States of the Live STT session (live_stt.h, live_stt_state_t). -/
inductive LiveSttState where
  | idle
  | connecting
  | streaming
  | error
deriving DecidableEq, Repr

/-- The mutable part of `live_stt_context_t` that the claims are about:
state, accumulated transcript, error message, stop flag and whether the
streaming (capture) task handle is set. -/
structure LiveSttCtx where
  state : LiveSttState
  transcript : String
  error_message : Option String
  stop_requested : Bool
  streaming_task : Bool
deriving DecidableEq, Repr

/-- The compile/runtime configuration of the Deepgram credential:
whether CONFIG_DEEPGRAM_API_KEY is defined at all, and its value. -/
structure DeepgramConfig where
  key_defined : Bool
  key : String
deriving DecidableEq, Repr

/-- is_deepgram_configured (live_stt.c lines 64-71): the key macro is
defined and nonempty. -/
def is_deepgram_configured (cfg : DeepgramConfig) : Bool :=
  cfg.key_defined && decide (0 < cfg.key.length)

/-- Allocation outcomes consumed by live_stt_init (mutex creation,
transcript buffer allocation). -/
structure LiveInitEnv where
  mutex_ok : Bool
  alloc_ok : Bool
deriving DecidableEq, Repr

/-- live_stt_init (live_stt.c lines 76-109).  Returns the error code, the
new value of s_initialized and the new context. -/
def live_stt_init (cfg : DeepgramConfig) (env : LiveInitEnv) (initialized : Bool)
    (ctx : LiveSttCtx) : EspErr × Bool × LiveSttCtx :=
  if initialized then (.ok, initialized, ctx)
  else if is_deepgram_configured cfg = false then (.invalidState, false, ctx)
  else if env.mutex_ok = false then (.noMem, false, ctx)
  else if env.alloc_ok = false then (.noMem, false, ctx)
  else (.ok, true, { ctx with transcript := "", state := .idle })

/-- Environment consumed by live_stt_start: init allocation outcomes and the
outcomes of WebSocket client creation and start. -/
structure LiveStartEnv where
  init_env : LiveInitEnv
  ws_client_ok : Bool
  ws_start_ok : Bool
deriving DecidableEq, Repr

/-- The part of live_stt_start after the initialization check
(live_stt.c lines 123-191).  The final Bool reports whether the WebSocket
connection was started (only a later WEBSOCKET_EVENT_CONNECTED event can
spawn the capture task, so no-ws-start implies no capture task). -/
def live_stt_start_after_init (cfg : DeepgramConfig) (env : LiveStartEnv)
    (ctx : LiveSttCtx) : EspErr × LiveSttCtx × Bool :=
  if ctx.state = .streaming ∨ ctx.state = .connecting then (.invalidState, ctx, false)
  else
    let ctx1 := { ctx with error_message := none, state := .connecting, stop_requested := false }
    if cfg.key_defined then
      if env.ws_client_ok = false then
        (.fail, { ctx1 with
          state := .error,
          error_message := some "Failed to create WebSocket client" }, false)
      else if env.ws_start_ok = false then
        (.fail, { ctx1 with
          state := .error,
          error_message := some "Failed to connect to Deepgram" }, false)
      else (.ok, ctx1, true)
    else
      (.invalidState, { ctx1 with
        state := .error,
        error_message := some "Deepgram API key not configured" }, false)

/-- live_stt_start (live_stt.c lines 114-192): lazily initializes the module
and then proceeds; an init failure is returned immediately, leaving the
context untouched.  Result: (error, s_initialized, context, ws started). -/
def live_stt_start (cfg : DeepgramConfig) (env : LiveStartEnv) (initialized : Bool)
    (ctx : LiveSttCtx) : EspErr × Bool × LiveSttCtx × Bool :=
  if initialized = false then
    let r := live_stt_init cfg env.init_env false ctx
    if r.1 ≠ .ok then (r.1, r.2.1, r.2.2, false)
    else
      let s := live_stt_start_after_init cfg env r.2.2
      (s.1, r.2.1, s.2.1, s.2.2)
  else
    let s := live_stt_start_after_init cfg env ctx
    (s.1, initialized, s.2.1, s.2.2)

/-- The WEBSOCKET_EVENT_DISCONNECTED branch of websocket_event_handler
(live_stt.c lines 366-381): if the session is Streaming the handler first
sets stop_requested, then dispatches on stop_requested. -/
def ws_on_disconnected (ctx : LiveSttCtx) : LiveSttCtx :=
  let ctx1 := if ctx.state = .streaming then { ctx with stop_requested := true } else ctx
  if ctx1.stop_requested = false then
    { ctx1 with
      state := .error,
      error_message := match ctx1.error_message with
        | none => some "Connection lost"
        | some m => some m }
  else
    { ctx1 with state := .idle }

/-- The snapshot filled in by live_stt_get_status (live_stt.h,
live_stt_status_t). -/
structure LiveSttStatus where
  state : LiveSttState
  transcript : Option String
  error_message : Option String
deriving DecidableEq, Repr

/-- live_stt_get_status itself: NULL pointer is rejected; an uninitialized
module reports an Idle snapshot with NULL transcript and error. -/
def live_stt_get_status (statusNull : Bool) (initialized : Bool)
    (ctx : LiveSttCtx) : EspErr × Option LiveSttStatus :=
  if statusNull then (.invalidArg, none)
  else if initialized = false then (.ok, some ⟨.idle, none, none⟩)
  else (.ok, some ⟨ctx.state,
    (if 0 < ctx.transcript.length then some ctx.transcript else none),
    ctx.error_message⟩)

/-! ## PCM upmix in the playback task (src/main/tts.c lines 326-342) -/

/-- Saturate a 32-bit intermediate value to the signed 16-bit range, exactly
as the two comparisons in playback_task do. -/
def clamp16 (x : Int) : Int :=
  if x > 32767 then 32767
  else if x < -32768 then -32768
  else x

/-- One sample of the mono-to-stereo upmix: 2x digital gain with clipping
protection (tts.c lines 331-335). -/
def upmix_sample (s : Int) : Int := clamp16 (s * 2)

/-- The upmix loop of playback_task: each mono sample is amplified, clamped
and written to both the left and the right channel slot. -/
def mono_to_stereo_gain (mono : List Int) : List Int :=
  mono.flatMap (fun s => [upmix_sample s, upmix_sample s])

/-! ## TTS speak entry point (src/main/tts.c lines 640-777)

The ring buffer itself is modelled further below; here we only need its
state record and reset operation, so the ring buffer section comes first in
the file order of the final development; forward references are avoided by
declaring the ring buffer now. -/

/-- ring_buffer_t (tts.c lines 44-51): fixed capacity byte buffer with a
write cursor (head), read cursor (tail) and a sticky overflow flag.  The
byte array is a `List Nat` of length `size`. -/
structure RingBuffer where
  size : Nat
  buffer : List Nat
  head : Nat
  tail : Nat
  overflow : Bool
deriving DecidableEq, Repr

/-- ring_buffer_reset (tts.c lines 121-128): drop all data, clear the
overflow flag. -/
def ring_buffer_reset (rb : RingBuffer) : RingBuffer :=
  { rb with head := 0, tail := 0, overflow := false }

/-- The two TTS providers (tts.h). -/
inductive TtsProvider where
  | elevenlabs
  | openai
deriving DecidableEq, Repr

/-- Speed clamping in tts_speak_with_speed (tts.c lines 657-664):
OpenAI range 0.25-4.0, ElevenLabs range 0.5-2.0. -/
def clamp_speed (p : TtsProvider) (speed : ℚ) : ℚ :=
  match p with
  | .openai => if speed < 1/4 then 1/4 else if speed > 4 then 4 else speed
  | .elevenlabs => if speed < 1/2 then 1/2 else if speed > 2 then 2 else speed

/-- The module-level TTS state touched by tts_speak_with_speed
(tts.c lines 54-61). -/
structure TtsState where
  initialized : Bool
  streaming : Bool
  playing : Bool
  stop_requested : Bool
  rb : RingBuffer
  playback_task : Bool
  provider : TtsProvider
deriving DecidableEq, Repr

/-- Outcomes of the effects performed before the HTTP transfer begins:
request-body JSON allocation, playback task creation, HTTP client init. -/
structure SpeakEnv where
  json_ok : Bool
  task_create_ok : Bool
  client_ok : Bool
deriving DecidableEq, Repr

/-- How far tts_speak_with_speed got. -/
inductive SpeakOutcome where
  | earlyReturn (err : EspErr)
  | streamingStarted
deriving DecidableEq, Repr

/-- tts_speak_with_speed (tts.c lines 640-777), modelled up to the point
where esp_http_client_perform starts streaming (line 750); everything after
that involves the concurrent playback task.  The final Bool reports whether
a playback task was spawned (xTaskCreate, line 695).  Text is represented
by its length only; the guards use nothing else. -/
def tts_speak_entry (st : TtsState) (textLen : Nat) (speed : ℚ)
    (env : SpeakEnv) : TtsState × SpeakOutcome × Bool :=
  if st.initialized = false then (st, .earlyReturn .invalidState, false)
  else if textLen = 0 then (st, .earlyReturn .invalidArg, false)
  else if st.streaming || st.playing then (st, .earlyReturn .invalidState, false)
  else
    let _clamped := clamp_speed st.provider speed
    let st1 := { st with rb := ring_buffer_reset st.rb, stop_requested := false, streaming := true }
    if env.json_ok = false then ({ st1 with streaming := false }, .earlyReturn .noMem, false)
    else if env.task_create_ok = false then
      ({ st1 with streaming := false }, .earlyReturn .noMem, false)
    else
      let st2 := { st1 with playback_task := true }
      if env.client_ok = false then
        ({ st2 with streaming := false, stop_requested := true }, .earlyReturn .fail, true)
      else (st2, .streamingStarted, true)

/-! ## Batch STT (src/main/stt.c) -/

/-- States of the batch STT session (stt.h, stt_state_t). -/
inductive SttState where
  | idle
  | recording
  | transcribing
  | done
  | error
deriving DecidableEq, Repr

/-- The part of stt_context_t the claims are about (stt.c lines 65-78). -/
structure SttCtx where
  state : SttState
  audio_size : Nat
  audio_capacity : Nat
  recording_start_ms : Nat
  recording_duration_ms : Nat
  transcription : Option String
  error_message : Option String
  recording_task : Bool
  transcribe_task : Bool
  stop_requested : Bool
deriving DecidableEq, Repr

/-- The snapshot filled in by stt_get_status (stt.h, stt_status_t). -/
structure SttStatus where
  state : SttState
  transcription : Option String
  error_message : Option String
  recording_ms : Nat
  audio_bytes : Nat
deriving DecidableEq, Repr

/-- stt_get_status (stt.c lines 645-676).  The first argument models a NULL
`status` output pointer; `now_ms` is the current tick time used while
recording.  An uninitialized module reports an all-zero Idle snapshot. -/
def stt_get_status (statusNull : Bool) (initialized : Bool) (ctx : SttCtx)
    (now_ms : Nat) : EspErr × Option SttStatus :=
  if statusNull then (.invalidArg, none)
  else if initialized = false then (.ok, some ⟨.idle, none, none, 0, 0⟩)
  else (.ok, some ⟨ctx.state, ctx.transcription, ctx.error_message,
    (if ctx.state = .recording then now_ms - ctx.recording_start_ms
     else ctx.recording_duration_ms),
    ctx.audio_size⟩)

/-- Recording limits (stt.c lines 33-35): 300 s maximum, 1024-byte mono
chunk per I2S read. -/
def MAX_RECORDING_MS : Nat := 300 * 1000

/-- RECORDING_CHUNK_SIZE (stt.c line 35). -/
def RECORDING_CHUNK_SIZE : Nat := 1024

/-- One iteration's input to the recording loop: whether bsp_extra_i2s_read
failed, and how many stereo bytes it produced. -/
structure RecIter where
  err : Bool
  bytesRead : Nat
deriving DecidableEq, Repr

/-- Why the recording loop exited. -/
inductive RecExit where
  | stopped
  | maxDuration
  | bufferFull
deriving DecidableEq, Repr

/-- The while-loop of recording_task (stt.c lines 252-292), driven by three
input streams indexed by the iteration counter k: the stop_requested flag
as observed at the top of iteration k, the wall-clock elapsed milliseconds
as computed at iteration k, and the I2S read outcome of iteration k.  Each
successful read appends bytesRead/4 stereo sample pairs as
(bytesRead/4)*2 mono bytes.  `fuel` bounds the number of iterations the
model unfolds; `none` means the fuel was exhausted before the loop exited
(the termination theorem shows a concrete fuel that is always enough). -/
def recording_loop (capacity : Nat) (stopReq : Nat → Bool) (elapsedAt : Nat → Nat)
    (reads : Nat → RecIter) : Nat → Nat → Nat → Option (Nat × RecExit)
  | 0, _, _ => none
  | fuel + 1, k, audioSize =>
    if stopReq k then some (audioSize, .stopped)
    else if MAX_RECORDING_MS ≤ elapsedAt k then some (audioSize, .maxDuration)
    else if capacity < audioSize + RECORDING_CHUNK_SIZE then some (audioSize, .bufferFull)
    else
      let it := reads k
      let audioSize1 := if it.err then audioSize else audioSize + (it.bytesRead / 4) * 2
      recording_loop capacity stopReq elapsedAt reads fuel (k + 1) audioSize1

/-- The minimum-length check after the recording loop
(stt.c lines 301-337): below 16000 bytes (0.5 s of 16 kHz 16-bit mono) the
session is marked Error without starting transcription; otherwise the state
becomes Transcribing and the transcription task is spawned.  The Bool
reports whether xTaskCreate for the transcription task was called. -/
def recording_task_finish (ctx : SttCtx) (task_create_ok : Bool) : SttCtx × Bool :=
  if ctx.audio_size < 16000 then
    ({ ctx with
       state := .error,
       error_message := some "Recording too short (minimum 0.5 seconds)",
       recording_task := false }, false)
  else
    let ctx1 := { ctx with state := .transcribing, recording_task := false }
    if task_create_ok then ({ ctx1 with transcribe_task := true }, true)
    else ({ ctx1 with
            state := .error,
            error_message := some "Failed to start transcription" }, true)

/-! ## Ring buffer operations (src/main/tts.c lines 121-262)

The byte array is a list of length `size`; `memcpy(&rb->buffer[pos], src,
n)` becomes a list splice; the up-to-two-chunk while loops of
ring_buffer_write / ring_buffer_read are modelled by recursion on the
number of bytes still to transfer, which each pass strictly decreases. -/

/-- memcpy of `src` into `buf` at offset `pos` (in the source the copies
always satisfy pos + src.length ≤ buf.length). -/
def listSplice (buf : List Nat) (pos : Nat) (src : List Nat) : List Nat :=
  buf.take pos ++ src ++ buf.drop (pos + src.length)

/-- The free-space formula of ring_buffer_free_space_internal
(tts.c lines 133-140) on raw cursors. -/
def freeSpaceRaw (size head tail : Nat) : Nat :=
  if tail ≤ head then size - head + tail - 1
  else tail - head - 1

/-- ring_buffer_free_space_internal (tts.c lines 133-140). -/
def ring_buffer_free_space_internal (rb : RingBuffer) : Nat :=
  freeSpaceRaw rb.size rb.head rb.tail

/-- The available-bytes formula computed both inside ring_buffer_read
(tts.c lines 208-213) and by ring_buffer_available (tts.c lines 251-262),
on raw cursors. -/
def availRaw (size head tail : Nat) : Nat :=
  if tail ≤ head then head - tail
  else size - tail + head

/-- ring_buffer_available (tts.c lines 251-262). -/
def ring_buffer_available (rb : RingBuffer) : Nat :=
  availRaw rb.size rb.head rb.tail

/-- The contiguous chunk size computed at the top of the write loop
(tts.c lines 166-176): from head to the end of the buffer (minus the one
reserved byte when tail is 0), or from head to tail-1. -/
def writeChunkSize (size head tail : Nat) : Nat :=
  if tail ≤ head then
    if tail = 0 then size - head - 1 else size - head
  else tail - head - 1

/-- The while loop of ring_buffer_write (tts.c lines 164-186); arguments
are the components of the mutable state.  Returns the updated byte array,
head cursor and the total written count. -/
def writeLoop (size : Nat) (data : List Nat) (buf : List Nat)
    (head tail written to_write : Nat) : List Nat × Nat × Nat :=
  if h : written < to_write then
    let chunk0 := writeChunkSize size head tail
    if hc : chunk0 = 0 then (buf, head, written)
    else
      let chunk := min chunk0 (to_write - written)
      let buf1 := listSplice buf head ((data.drop written).take chunk)
      writeLoop size data buf1 ((head + chunk) % size) tail (written + chunk) to_write
  else (buf, head, written)
termination_by to_write - written
decreasing_by
  simp only [Nat.min_def]
  split <;> omega

/-- ring_buffer_write (tts.c lines 146-194): writes up to
min(len, free_space) bytes, sets the sticky overflow flag on truncation,
returns the updated buffer and the written count. -/
def ring_buffer_write (rb : RingBuffer) (data : List Nat) : RingBuffer × Nat :=
  if data.length = 0 then (rb, 0)
  else
    let free_space := ring_buffer_free_space_internal rb
    if free_space = 0 then ({ rb with overflow := true }, 0)
    else
      let to_write := min data.length free_space
      let r := writeLoop rb.size data rb.buffer rb.head rb.tail 0 to_write
      ({ rb with
         buffer := r.1, head := r.2.1,
         overflow := if r.2.2 < data.length then true else rb.overflow }, r.2.2)

/-- The contiguous chunk size computed at the top of the read loop
(tts.c lines 225-232): from tail to head, or from tail to the end of the
buffer. -/
def readChunkSize (size head tail : Nat) : Nat :=
  if tail ≤ head then head - tail else size - tail

/-- The while loop of ring_buffer_read (tts.c lines 223-242); `out`
accumulates the bytes copied to the caller.  Returns the accumulated
output, the updated tail cursor and the total read count. -/
def readLoop (size : Nat) (buf : List Nat) (head : Nat)
    (tail read_count to_read : Nat) (out : List Nat) : List Nat × Nat × Nat :=
  if h : read_count < to_read then
    let chunk0 := readChunkSize size head tail
    if hc : chunk0 = 0 then (out, tail, read_count)
    else
      let chunk := min chunk0 (to_read - read_count)
      let out1 := out ++ (buf.drop tail).take chunk
      readLoop size buf head ((tail + chunk) % size) (read_count + chunk) to_read out1
  else (out, tail, read_count)
termination_by to_read - read_count
decreasing_by
  simp only [Nat.min_def]
  split <;> omega

/-- ring_buffer_read (tts.c lines 200-246): reads up to
min(len, available) bytes; returns the updated buffer and the bytes read
(the C function fills the caller buffer and returns the count; the list of
bytes carries both). -/
def ring_buffer_read (rb : RingBuffer) (len : Nat) : RingBuffer × List Nat :=
  if len = 0 then (rb, [])
  else
    let avail := ring_buffer_available rb
    if avail = 0 then (rb, [])
    else
      let to_read := min len avail
      let r := readLoop rb.size rb.buffer rb.head rb.tail 0 to_read []
      ({ rb with tail := r.2.1 }, r.1)

/-- Well-formedness of a ring buffer state: the byte array has length
`size` and both cursors are inside [0, size). -/
def rbWF (rb : RingBuffer) : Prop :=
  rb.buffer.length = rb.size ∧ rb.head < rb.size ∧ rb.tail < rb.size

/-- The queue abstraction of a ring buffer byte array with raw cursors:
the readable bytes from tail to head, in FIFO order (wrapping at the end
of the array). -/
def contentsRaw (buf : List Nat) (head tail : Nat) : List Nat :=
  if tail ≤ head then (buf.drop tail).take (head - tail)
  else buf.drop tail ++ buf.take head

/-- The queue abstraction of a ring buffer state. -/
def rbContents (rb : RingBuffer) : List Nat :=
  contentsRaw rb.buffer rb.head rb.tail

/-- The ring buffer state produced by ring_buffer_init (tts.c lines 77-98):
zeroed array, both cursors at 0, overflow clear. -/
def rbInit (n : Nat) : RingBuffer :=
  ⟨n, List.replicate n 0, 0, 0, false⟩

/-- A client operation on the ring buffer: one producer write or one
consumer read. -/
inductive RBOp where
  | write (data : List Nat)
  | read (len : Nat)

/-- Run a sequence of ring-buffer operations, collecting the concatenation
of the bytes each write actually accepted (in write order) and the
concatenation of the bytes each read returned (in read order). -/
def runOps : RingBuffer → List RBOp → RingBuffer × List Nat × List Nat
  | rb, [] => (rb, [], [])
  | rb, .write data :: ops =>
    let w := ring_buffer_write rb data
    let rest := runOps w.1 ops
    (rest.1, data.take w.2 ++ rest.2.1, rest.2.2)
  | rb, .read len :: ops =>
    let r := ring_buffer_read rb len
    let rest := runOps r.1 ops
    (rest.1, rest.2.1, r.2 ++ rest.2.2)

/-- Run a sequence of writes with no intervening reads, collecting each
write's returned count. -/
def runWrites : RingBuffer → List (List Nat) → RingBuffer × List Nat
  | rb, [] => (rb, [])
  | rb, d :: ds =>
    let w := ring_buffer_write rb d
    let rest := runWrites w.1 ds
    (rest.1, w.2 :: rest.2)

/-! ## Theorems -/

/-! ### C1 — disconnect semantics of the Live STT session -/

/-- C1 counterexample: an unsolicited disconnect (stop() was never called,
so stop_requested is false, and no error was recorded) while the session is
Streaming leaves the session in Idle with no error message — not in Error
with "Connection lost" as the claim states. -/
theorem ws_on_disconnected_streaming_counterexample :
    (ws_on_disconnected ⟨.streaming, "", none, false, true⟩).state = .idle ∧
    (ws_on_disconnected ⟨.streaming, "", none, false, true⟩).state ≠ .error ∧
    (ws_on_disconnected ⟨.streaming, "", none, false, true⟩).error_message = none := by
  refine ⟨rfl, by decide, rfl⟩

/-- C1 amended: on a disconnect while Streaming the handler itself sets
stop_requested and always transitions to Idle, regardless of whether stop()
was called; on a disconnect in any other state it transitions to Idle when
stop_requested was set and otherwise to Error with "Connection lost" unless
an error was already recorded. -/
theorem ws_on_disconnected_spec (ctx : LiveSttCtx) :
    ws_on_disconnected ctx =
      if ctx.state = .streaming then
        { ctx with stop_requested := true, state := .idle }
      else if ctx.stop_requested then { ctx with state := .idle }
      else { ctx with
             state := .error,
             error_message := some (ctx.error_message.getD "Connection lost") } := by
  unfold ws_on_disconnected
  by_cases h1 : ctx.state = .streaming
  · simp [h1]
  · simp only [h1, if_false]
    by_cases h2 : ctx.stop_requested
    · simp [h2]
    · simp only [Bool.not_eq_true] at h2
      cases h3 : ctx.error_message <;> simp [h2, h3, Option.getD]

/-! ### C4 — Live STT start with an absent Deepgram credential -/

/-- C4: with the Deepgram key absent (defined but empty, or not defined at
all) and the module not yet initialized, live_stt_start fails inside
live_stt_init and returns ESP_ERR_INVALID_STATE without touching the
context: the state stays Idle instead of becoming Error, no
"API key not configured" message is recorded (so the HTTP layer cannot
distinguish this from the already-active case), and nothing that could
spawn a capture task is started. -/
theorem live_stt_start_no_key_divergence :
    (∀ env : LiveStartEnv,
      live_stt_start ⟨true, ""⟩ env false ⟨.idle, "", none, false, false⟩
        = (.invalidState, false, ⟨.idle, "", none, false, false⟩, false)) ∧
    (∀ env : LiveStartEnv,
      live_stt_start ⟨false, "secret"⟩ env false ⟨.idle, "", none, false, false⟩
        = (.invalidState, false, ⟨.idle, "", none, false, false⟩, false)) := by
  constructor <;> intro env <;> rfl

/-! ### C5 — mono-to-stereo upmix with gain 2.0 saturates -/

/-- The upmix doubles the sample count. -/
theorem mono_to_stereo_gain_length (mono : List Int) :
    (mono_to_stereo_gain mono).length = 2 * mono.length := by
  induction mono with
  | nil => rfl
  | cons a tl ih =>
    simp only [mono_to_stereo_gain, List.flatMap_cons, List.length_append,
      List.length_cons, List.length_nil] at ih ⊢
    omega

/-- The left-channel slot 2*i holds the upmixed sample i. -/
theorem mono_to_stereo_gain_getD_left (mono : List Int) (i : Nat)
    (h : i < mono.length) :
    (mono_to_stereo_gain mono).getD (2 * i) 0 = upmix_sample (mono.getD i 0) := by
  induction mono generalizing i with
  | nil => simp at h
  | cons a tl ih =>
    cases i with
    | zero => simp [mono_to_stereo_gain]
    | succ n =>
      have h2 : 2 * (n + 1) = 2 * n + 1 + 1 := by ring
      simp only [mono_to_stereo_gain, List.flatMap_cons, List.cons_append,
        List.nil_append, h2, List.getD_cons_succ]
      exact ih n (by simpa using h)

/-- The right-channel slot 2*i+1 holds the upmixed sample i. -/
theorem mono_to_stereo_gain_getD_right (mono : List Int) (i : Nat)
    (h : i < mono.length) :
    (mono_to_stereo_gain mono).getD (2 * i + 1) 0 = upmix_sample (mono.getD i 0) := by
  induction mono generalizing i with
  | nil => simp at h
  | cons a tl ih =>
    cases i with
    | zero => simp [mono_to_stereo_gain]
    | succ n =>
      have h2 : 2 * (n + 1) + 1 = 2 * n + 1 + 1 + 1 := by ring
      simp only [mono_to_stereo_gain, List.flatMap_cons, List.cons_append,
        List.nil_append, h2, List.getD_cons_succ]
      exact ih n (by simpa using h)

/-- clamp16 is exactly signed-16-bit saturation. -/
theorem clamp16_eq_saturate (x : Int) : clamp16 x = max (-32768) (min 32767 x) := by
  unfold clamp16
  simp only [max_def, min_def]
  split_ifs <;> omega

/-- C5: for every mono input, the upmix doubles the sample count, the
left slot 2*i and right slot 2*i+1 both hold the same value, that value is
the input sample multiplied by 2 and saturated to [-32768, 32767] (max/min,
never a wrap modulo 2^16), and in particular input 20000 yields 32767. -/
theorem upmix_saturates_and_duplicates (mono : List Int) (i : Nat)
    (h : i < mono.length) :
    (mono_to_stereo_gain mono).length = 2 * mono.length ∧
    (mono_to_stereo_gain mono).getD (2 * i) 0
      = max (-32768) (min 32767 (mono.getD i 0 * 2)) ∧
    (mono_to_stereo_gain mono).getD (2 * i + 1) 0
      = (mono_to_stereo_gain mono).getD (2 * i) 0 ∧
    (-32768 : Int) ≤ (mono_to_stereo_gain mono).getD (2 * i) 0 ∧
    (mono_to_stereo_gain mono).getD (2 * i) 0 ≤ 32767 ∧
    upmix_sample 20000 = 32767 := by
  have hl := mono_to_stereo_gain_getD_left mono i h
  have hr := mono_to_stereo_gain_getD_right mono i h
  have hs : upmix_sample (mono.getD i 0) = max (-32768) (min 32767 (mono.getD i 0 * 2)) := by
    unfold upmix_sample
    exact clamp16_eq_saturate _
  refine ⟨mono_to_stereo_gain_length mono, by rw [hl, hs], by rw [hl, hr], ?_, ?_, by decide⟩
  · rw [hl, hs]
    simp only [le_max_iff, le_refl, true_or]
  · rw [hl, hs]
    simp only [max_le_iff, min_le_iff]
    omega

/-- C5 witness at the concrete input [20000, -30000, 5], slot i = 1. -/
theorem upmix_saturates_and_duplicates_witness :
    (mono_to_stereo_gain [20000, -30000, 5]).length = 2 * ([20000, -30000, 5] : List Int).length ∧
    (mono_to_stereo_gain [20000, -30000, 5]).getD (2 * 1) 0
      = max (-32768) (min 32767 (([20000, -30000, 5] : List Int).getD 1 0 * 2)) ∧
    (mono_to_stereo_gain [20000, -30000, 5]).getD (2 * 1 + 1) 0
      = (mono_to_stereo_gain [20000, -30000, 5]).getD (2 * 1) 0 ∧
    (-32768 : Int) ≤ (mono_to_stereo_gain [20000, -30000, 5]).getD (2 * 1) 0 ∧
    (mono_to_stereo_gain [20000, -30000, 5]).getD (2 * 1) 0 ≤ 32767 ∧
    upmix_sample 20000 = 32767 :=
  upmix_saturates_and_duplicates [20000, -30000, 5] 1 (by decide)

/-! ### C6 — speak while already streaming or playing -/

/-- C6: calling tts_speak_with_speed on a non-empty text while a session is
already streaming or playing returns ESP_ERR_INVALID_STATE and changes
nothing: the returned state is the input state (in particular the ring
buffer was not reset) and no playback task was spawned. -/
theorem tts_speak_entry_already_active (st : TtsState) (textLen : Nat) (speed : ℚ)
    (env : SpeakEnv) (hbusy : st.streaming = true ∨ st.playing = true)
    (htext : 0 < textLen) :
    tts_speak_entry st textLen speed env = (st, .earlyReturn .invalidState, false) := by
  unfold tts_speak_entry
  have hb : (st.streaming || st.playing) = true := by
    rcases hbusy with h | h <;> simp [h]
  by_cases hi : st.initialized = false
  · simp [hi]
  · simp [hi, hb, show ¬ textLen = 0 by omega]

/-- C6 witness: a concrete busy state and non-empty text. -/
theorem tts_speak_entry_already_active_witness :
    tts_speak_entry
      ⟨true, true, false, false, rbInit 4, true, .elevenlabs⟩ 5 1 ⟨true, true, true⟩
      = (⟨true, true, false, false, rbInit 4, true, .elevenlabs⟩,
         .earlyReturn .invalidState, false) :=
  tts_speak_entry_already_active _ 5 1 _ (Or.inl rfl) (by decide)

/-! ### C7 — recording below the 0.5 s minimum -/

/-- C7: when recording ends with less than 16000 bytes captured (0.5 s of
16 kHz 16-bit mono), the session is marked Error, the recorded message
contains "too short", and the transcription task is not started. -/
theorem recording_too_short (ctx : SttCtx) (ok : Bool)
    (h : ctx.audio_size < 16000) :
    (recording_task_finish ctx ok).1.state = .error ∧
    (∃ msg, (recording_task_finish ctx ok).1.error_message = some msg ∧
      ∃ pre post : List Char, msg.toList = pre ++ "too short".toList ++ post) ∧
    (recording_task_finish ctx ok).2 = false := by
  unfold recording_task_finish
  rw [if_pos h]
  exact ⟨rfl, ⟨"Recording too short (minimum 0.5 seconds)", rfl,
    "Recording ".toList, " (minimum 0.5 seconds)".toList, by decide⟩, rfl⟩

/-- C7 witness: 3200 bytes (0.1 s of audio). -/
theorem recording_too_short_witness :
    (recording_task_finish ⟨.recording, 3200, 9600000, 0, 0, none, none, true, false, false⟩ true).1.state = .error ∧
    (∃ msg, (recording_task_finish ⟨.recording, 3200, 9600000, 0, 0, none, none, true, false, false⟩ true).1.error_message = some msg ∧
      ∃ pre post : List Char, msg.toList = pre ++ "too short".toList ++ post) ∧
    (recording_task_finish ⟨.recording, 3200, 9600000, 0, 0, none, none, true, false, false⟩ true).2 = false :=
  recording_too_short _ true (by decide)

/-! ### C8 — the recording loop terminates without stop_recording -/

/-- Helper for C8: once the wall clock has advanced at least one
millisecond per iteration, the loop exits within the remaining duration
budget, through the duration cap or the capacity cap. -/
theorem recording_loop_exits (capacity : Nat) (stopReq : Nat → Bool)
    (elapsedAt : Nat → Nat) (reads : Nat → RecIter)
    (hstop : ∀ k, stopReq k = false)
    (hmono : ∀ k, elapsedAt k + 1 ≤ elapsedAt (k + 1)) :
    ∀ fuel k sz, k ≤ elapsedAt k → MAX_RECORDING_MS - elapsedAt k < fuel →
      ∃ finalSize exit, recording_loop capacity stopReq elapsedAt reads fuel k sz
          = some (finalSize, exit) ∧ (exit = .maxDuration ∨ exit = .bufferFull) := by
  intro fuel
  induction fuel with
  | zero => intro k sz _ hlt; omega
  | succ fuel ih =>
    intro k sz hk hlt
    simp only [recording_loop, hstop k, if_false, Bool.false_eq_true]
    by_cases hd : MAX_RECORDING_MS ≤ elapsedAt k
    · exact ⟨sz, .maxDuration, by simp [hd], Or.inl rfl⟩
    · by_cases hc : capacity < sz + RECORDING_CHUNK_SIZE
      · exact ⟨sz, .bufferFull, by simp [hd, hc], Or.inr rfl⟩
      · have hk1 : k + 1 ≤ elapsedAt (k + 1) := le_trans (by omega) (hmono k)
        have hlt1 : MAX_RECORDING_MS - elapsedAt (k + 1) < fuel := by
          have := hmono k
          omega
        obtain ⟨fs, ex, heq, hex⟩ := ih (k + 1)
          (if (reads k).err then sz else sz + ((reads k).bytesRead / 4) * 2) hk1 hlt1
        exact ⟨fs, ex, by simp [hd, hc, heq], hex⟩

/-- C8: if stop_recording() is never called (stop_requested stays false)
and every loop iteration advances the wall clock by at least one
millisecond, the recording loop of recording_task exits within
MAX_RECORDING_MS + 1 iterations, and it exits through the 300 s duration
cap or the buffer-capacity cap, whichever fires first. -/
theorem recording_loop_terminates (capacity : Nat) (stopReq : Nat → Bool)
    (elapsedAt : Nat → Nat) (reads : Nat → RecIter)
    (hstop : ∀ k, stopReq k = false)
    (hmono : ∀ k, elapsedAt k + 1 ≤ elapsedAt (k + 1)) :
    ∃ finalSize exit,
      recording_loop capacity stopReq elapsedAt reads (MAX_RECORDING_MS + 1) 0 0
        = some (finalSize, exit) ∧ (exit = .maxDuration ∨ exit = .bufferFull) :=
  recording_loop_exits capacity stopReq elapsedAt reads hstop hmono
    (MAX_RECORDING_MS + 1) 0 0 (Nat.zero_le _) (by omega)

/-- C8 witness: zero capacity, a clock advancing 1 ms per iteration, no
stop request, reads that never return data. -/
theorem recording_loop_terminates_witness :
    ∃ finalSize exit,
      recording_loop 0 (fun _ => false) (fun k => k) (fun _ => ⟨false, 0⟩)
        (MAX_RECORDING_MS + 1) 0 0 = some (finalSize, exit) ∧
      (exit = .maxDuration ∨ exit = .bufferFull) :=
  recording_loop_terminates 0 (fun _ => false) (fun k => k) (fun _ => ⟨false, 0⟩)
    (fun _ => rfl) (fun k => by simp)

/-! ### C10 — get_status on an uninitialized session and NULL pointers -/

/-- C10: with the module never initialized, stt_get_status and
live_stt_get_status succeed and fill an Idle snapshot with NULL
transcription/transcript, NULL error message and zero counters; and for
both, a NULL status pointer is rejected with ESP_ERR_INVALID_ARG. -/
theorem get_status_uninitialized_and_null (ctx : SttCtx) (lctx : LiveSttCtx)
    (init linit : Bool) (now : Nat) :
    stt_get_status false false ctx now = (.ok, some ⟨.idle, none, none, 0, 0⟩) ∧
    live_stt_get_status false false lctx = (.ok, some ⟨.idle, none, none⟩) ∧
    stt_get_status true init ctx now = (.invalidArg, none) ∧
    live_stt_get_status true linit lctx = (.invalidArg, none) :=
  ⟨rfl, rfl, rfl, rfl⟩

/-! ### Ring buffer groundwork (towards C2, C3, C9) -/

/-- A splice inside the bounds of the array preserves its length. -/
theorem listSplice_length (buf src : List Nat) (pos : Nat)
    (h : pos + src.length ≤ buf.length) :
    (listSplice buf pos src).length = buf.length := by
  unfold listSplice
  simp only [List.length_append, List.length_take, List.length_drop]
  omega

/-- The queue abstraction has exactly `availRaw` bytes. -/
theorem contentsRaw_length (buf : List Nat) (size head tail : Nat)
    (hlen : buf.length = size) (hh : head < size) (ht : tail < size) :
    (contentsRaw buf head tail).length = availRaw size head tail := by
  unfold contentsRaw availRaw
  by_cases hc : tail ≤ head <;>
    simp only [hc, if_true, if_false, List.length_append, List.length_take,
      List.length_drop, hlen] <;> omega

/-- Free space and available bytes always add up to size - 1. -/
theorem freeSpaceRaw_add_availRaw (size head tail : Nat)
    (hh : head < size) (ht : tail < size) :
    availRaw size head tail + freeSpaceRaw size head tail = size - 1 := by
  unfold availRaw freeSpaceRaw
  by_cases hc : tail ≤ head <;> simp only [hc, if_true, if_false] <;> omega

/-- Writing one contiguous chunk at the head cursor appends it to the queue
contents.  The side conditions are exactly those the write loop guarantees:
the chunk fits up to the end of the array, never reaches the reserved byte
when tail is 0, and never catches up with tail from below. -/
theorem contentsRaw_splice (buf src : List Nat) (size head tail : Nat)
    (hlen : buf.length = size) (hh : head < size) (ht : tail < size)
    (hcase : (tail ≤ head ∧ head + src.length ≤ size ∧ (tail = 0 → head + src.length < size))
           ∨ (head < tail ∧ head + src.length < tail)) :
    contentsRaw (listSplice buf head src) ((head + src.length) % size) tail
      = contentsRaw buf head tail ++ src := by
  have hxlen : (buf.take head).length = head := by
    rw [List.length_take]
    exact Nat.min_eq_left (by omega)
  have hsplice : listSplice buf head src
      = buf.take head ++ (src ++ buf.drop (head + src.length)) := by
    unfold listSplice
    rw [List.append_assoc]
  have hdlen : ((buf.take head).drop tail).length = head - tail := by
    rw [List.length_drop, hxlen]
  rcases hcase with ⟨hth, hle, h0⟩ | ⟨hht, hlt⟩
  · by_cases heq : head + src.length < size
    · rw [Nat.mod_eq_of_lt heq, hsplice]
      unfold contentsRaw
      rw [if_pos hth, if_pos (show tail ≤ head + src.length by omega)]
      rw [List.drop_append_eq_append_drop, hxlen,
        show tail - head = 0 by omega, List.drop_zero]
      rw [List.take_append_eq_append_take,
        List.take_of_length_le (by rw [hdlen]; omega), hdlen,
        show head + src.length - tail - (head - tail) = src.length by omega]
      rw [List.take_append_eq_append_take, List.take_length,
        Nat.sub_self, List.take_zero, List.append_nil]
      rw [List.drop_take]
    · have hsz : head + src.length = size := by omega
      have ht0 : ¬ tail = 0 := fun h => absurd hsz (Nat.ne_of_lt (h0 h))
      rw [hsz, Nat.mod_self, hsplice]
      unfold contentsRaw
      rw [if_pos hth, if_neg (show ¬ tail ≤ 0 by omega)]
      rw [List.take_zero, List.append_nil, hsz,
        List.drop_of_length_le (le_of_eq hlen), List.append_nil]
      rw [List.drop_append_eq_append_drop, hxlen,
        show tail - head = 0 by omega, List.drop_zero]
      rw [List.drop_take]
  · have hmod : head + src.length < size := by omega
    have h1 : (buf.take head).take (head + src.length) = buf.take head :=
      List.take_of_length_le (by rw [hxlen]; omega)
    have h2 : (buf.take head).drop tail = [] :=
      List.drop_of_length_le (by rw [hxlen]; omega)
    have h3 : src.drop (tail - head) = [] :=
      List.drop_of_length_le (by omega)
    rw [Nat.mod_eq_of_lt hmod, hsplice]
    unfold contentsRaw
    rw [if_neg (show ¬ tail ≤ head by omega),
      if_neg (show ¬ tail ≤ head + src.length by omega)]
    rw [List.take_append_eq_append_take, h1, hxlen,
      show head + src.length - head = src.length by omega]
    rw [List.take_append_eq_append_take, List.take_length,
      Nat.sub_self, List.take_zero, List.append_nil]
    rw [List.drop_append_eq_append_drop, hxlen, h2]
    rw [List.drop_append_eq_append_drop, h3, List.drop_drop]
    rw [show head + src.length + (tail - head - src.length) = tail by omega]
    simp [List.append_assoc]

/-- The write loop with nothing left to write returns immediately. -/
theorem writeLoop_done (size : Nat) (data buf : List Nat)
    (head tail written to_write : Nat) (h : ¬ written < to_write) :
    writeLoop size data buf head tail written to_write = (buf, head, written) := by
  unfold writeLoop
  rw [dif_neg h]

/-- One pass of the write loop with a nonzero contiguous chunk. -/
theorem writeLoop_step (size : Nat) (data buf : List Nat)
    (head tail written to_write : Nat) (h : written < to_write)
    (hc : ¬ writeChunkSize size head tail = 0) :
    writeLoop size data buf head tail written to_write =
      writeLoop size data
        (listSplice buf head ((data.drop written).take
          (min (writeChunkSize size head tail) (to_write - written))))
        ((head + min (writeChunkSize size head tail) (to_write - written)) % size)
        tail
        (written + min (writeChunkSize size head tail) (to_write - written))
        to_write := by
  conv_lhs => rw [writeLoop]
  rw [dif_pos h, dif_neg hc]

/-- The final pass of the write loop: the remaining bytes fit in one
contiguous chunk. -/
theorem writeLoop_last (size : Nat) (data buf : List Nat)
    (head tail written to_write : Nat) (h : written < to_write)
    (hcw : to_write - written ≤ writeChunkSize size head tail) :
    writeLoop size data buf head tail written to_write
      = (listSplice buf head ((data.drop written).take (to_write - written)),
         (head + (to_write - written)) % size, to_write) := by
  rw [writeLoop_step size data buf head tail written to_write h (by omega),
    Nat.min_eq_right hcw,
    show written + (to_write - written) = to_write by omega,
    writeLoop_done size data _ _ tail to_write to_write (by omega)]

/-- Complete behaviour of the write loop when invoked by ring_buffer_write:
it writes exactly `to_write` bytes (the prefix of `data` of that length),
appending them to the queue contents, in at most two passes. -/
theorem writeLoop_spec (size : Nat) (data buf : List Nat) (head tail to_write : Nat)
    (hlen : buf.length = size) (hh : head < size) (ht : tail < size)
    (h1 : 1 ≤ to_write)
    (hfree : to_write ≤ freeSpaceRaw size head tail)
    (hdata : to_write ≤ data.length) :
    ∃ buf2 head2,
      writeLoop size data buf head tail 0 to_write = (buf2, head2, to_write) ∧
      buf2.length = size ∧ head2 < size ∧
      contentsRaw buf2 head2 tail = contentsRaw buf head tail ++ data.take to_write := by
  by_cases hth : tail ≤ head
  · by_cases ht0 : tail = 0
    · -- chunk0 = size - head - 1 = free space: a single pass
      subst ht0
      have hch : writeChunkSize size head 0 = size - head - 1 := by
        unfold writeChunkSize
        rw [if_pos hth, if_pos rfl]
      have hfr : freeSpaceRaw size head 0 = size - head - 1 := by
        unfold freeSpaceRaw
        rw [if_pos hth]
        omega
      have hsrclen : (data.take to_write).length = to_write := by
        rw [List.length_take]
        exact Nat.min_eq_left hdata
      refine ⟨_, _, writeLoop_last size data buf head 0 0 to_write (by omega)
        (by rw [hch]; omega), ?_, ?_, ?_⟩
      · rw [Nat.sub_zero, List.drop_zero]
        exact (listSplice_length buf (data.take to_write) head (by rw [hsrclen]; omega)).trans hlen
      · exact Nat.mod_lt _ (by omega)
      · rw [Nat.sub_zero, List.drop_zero]
        have := contentsRaw_splice buf (data.take to_write) size head 0 hlen hh ht
          (Or.inl ⟨hth, by rw [hsrclen]; omega, fun _ => by rw [hsrclen]; omega⟩)
        rw [hsrclen] at this
        exact this
    · by_cases hw1 : to_write ≤ size - head
      · -- still fits up to the end of the array: a single pass
        have hch : writeChunkSize size head tail = size - head := by
          unfold writeChunkSize
          rw [if_pos hth, if_neg ht0]
        have hsrclen : (data.take to_write).length = to_write := by
          rw [List.length_take]
          exact Nat.min_eq_left hdata
        refine ⟨_, _, writeLoop_last size data buf head tail 0 to_write (by omega)
          (by rw [hch]; omega), ?_, ?_, ?_⟩
        · rw [Nat.sub_zero, List.drop_zero]
          exact (listSplice_length buf (data.take to_write) head (by rw [hsrclen]; omega)).trans hlen
        · exact Nat.mod_lt _ (by omega)
        · rw [Nat.sub_zero, List.drop_zero]
          have := contentsRaw_splice buf (data.take to_write) size head tail hlen hh ht
            (Or.inl ⟨hth, by rw [hsrclen]; omega, fun h => absurd h ht0⟩)
          rw [hsrclen] at this
          exact this
      · -- wraps: first pass to the end of the array, second pass from 0
        have hch : writeChunkSize size head tail = size - head := by
          unfold writeChunkSize
          rw [if_pos hth, if_neg ht0]
        have hfr : freeSpaceRaw size head tail = size - head + tail - 1 := by
          unfold freeSpaceRaw
          rw [if_pos hth]
        set c1 := size - head with hc1
        set c2 := to_write - c1 with hc2
        have hc1pos : 1 ≤ c1 := by omega
        have hc2pos : 1 ≤ c2 := by omega
        have hc2lt : c2 ≤ tail - 1 := by omega
        have hsrc1len : ((data.drop 0).take (min (writeChunkSize size head tail) (to_write - 0))).length = c1 := by
          rw [List.drop_zero, List.length_take, hch, Nat.sub_zero,
            Nat.min_eq_left (show c1 ≤ to_write by omega)]
          exact Nat.min_eq_left (show c1 ≤ data.length by omega)
        have hstep := writeLoop_step size data buf head tail 0 to_write (by omega)
          (by rw [hch]; omega)
        rw [hch, Nat.sub_zero, Nat.min_eq_left (by omega : c1 ≤ to_write),
          show head + c1 = size by omega, Nat.mod_self, Nat.zero_add] at hstep
        set buf1 := listSplice buf head ((data.drop 0).take c1) with hbuf1
        have hbuf1len : buf1.length = size := by
          rw [hbuf1, List.drop_zero]
          refine (listSplice_length buf (data.take c1) head ?_).trans hlen
          rw [List.length_take, Nat.min_eq_left (show c1 ≤ data.length by omega)]
          omega
        have hch0 : writeChunkSize size 0 tail = tail - 1 := by
          unfold writeChunkSize
          rw [if_neg (show ¬ tail ≤ 0 by omega)]
          omega
        have hlast := writeLoop_last size data buf1 0 tail c1 to_write (by omega)
          (by rw [hch0]; omega)
        rw [hstep, hlast]
        have hsrc2len : ((data.drop c1).take (to_write - c1)).length = c2 := by
          rw [List.length_take, List.length_drop]
          exact Nat.min_eq_left (show to_write - c1 ≤ data.length - c1 by omega)
        refine ⟨_, _, rfl, ?_, ?_, ?_⟩
        · exact (listSplice_length buf1 _ 0 (by rw [hsrc2len, hbuf1len]; omega)).trans hbuf1len
        · rw [Nat.zero_add]
          exact Nat.mod_lt _ (by omega)
        · have hs1 := contentsRaw_splice buf (data.take c1) size head tail hlen hh ht
            (Or.inl ⟨hth, by
              rw [List.length_take, Nat.min_eq_left (show c1 ≤ data.length by omega)]
              omega,
              fun h => absurd h ht0⟩)
          rw [List.length_take, Nat.min_eq_left (by omega : c1 ≤ data.length),
            show head + c1 = size by omega, Nat.mod_self] at hs1
          have hs2 := contentsRaw_splice buf1 ((data.drop c1).take (to_write - c1))
            size 0 tail hbuf1len (by omega) ht
            (Or.inr ⟨by omega, by rw [hsrc2len]; omega⟩)
          rw [hsrc2len, Nat.zero_add] at hs2
          rw [Nat.zero_add, hs2]
          rw [hbuf1, List.drop_zero]
          rw [hs1, List.append_assoc]
          congr 1
          rw [← List.take_add]
          congr 1
          omega
  · -- head < tail: the chunk up to tail - 1 covers all free space
    have hch : writeChunkSize size head tail = tail - head - 1 := by
      unfold writeChunkSize
      rw [if_neg hth]
    have hfr : freeSpaceRaw size head tail = tail - head - 1 := by
      unfold freeSpaceRaw
      rw [if_neg hth]
    have hsrclen : (data.take to_write).length = to_write := by
      rw [List.length_take]
      exact Nat.min_eq_left hdata
    refine ⟨_, _, writeLoop_last size data buf head tail 0 to_write (by omega)
      (by rw [hch]; omega), ?_, ?_, ?_⟩
    · rw [Nat.sub_zero, List.drop_zero]
      exact (listSplice_length buf (data.take to_write) head (by rw [hsrclen]; omega)).trans hlen
    · exact Nat.mod_lt _ (by omega)
    · rw [Nat.sub_zero, List.drop_zero]
      have := contentsRaw_splice buf (data.take to_write) size head tail hlen hh ht
        (Or.inr ⟨by omega, by rw [hsrclen]; omega⟩)
      rw [hsrclen] at this
      exact this

/-- Full functional specification of ring_buffer_write on a well-formed
state: it accepts exactly min(len, free_space) bytes, appends that prefix
of `data` to the queue contents, leaves the tail cursor alone, keeps the
state well formed, and ors the sticky overflow flag with "the write was
truncated". -/
theorem ring_buffer_write_spec (rb : RingBuffer) (data : List Nat) (hwf : rbWF rb) :
    rbWF (ring_buffer_write rb data).1 ∧
    (ring_buffer_write rb data).1.size = rb.size ∧
    (ring_buffer_write rb data).1.tail = rb.tail ∧
    (ring_buffer_write rb data).2
      = min data.length (ring_buffer_free_space_internal rb) ∧
    rbContents (ring_buffer_write rb data).1
      = rbContents rb ++ data.take (ring_buffer_write rb data).2 ∧
    (ring_buffer_write rb data).1.overflow
      = (rb.overflow || decide ((ring_buffer_write rb data).2 < data.length)) := by
  obtain ⟨hlen, hh, ht⟩ := hwf
  by_cases hd : data.length = 0
  · have he : ring_buffer_write rb data = (rb, 0) := by
      unfold ring_buffer_write
      rw [if_pos hd]
    rw [he]
    refine ⟨⟨hlen, hh, ht⟩, rfl, rfl, ?_, ?_, ?_⟩
    · rw [hd]
      simp
    · simp
    · simp [hd]
  · by_cases hf : ring_buffer_free_space_internal rb = 0
    · have he : ring_buffer_write rb data = ({ rb with overflow := true }, 0) := by
        simp only [ring_buffer_write, if_neg hd, hf, if_pos rfl, eq_self_iff_true, if_true]
      rw [he]
      refine ⟨⟨hlen, hh, ht⟩, rfl, rfl, ?_, ?_, ?_⟩
      · rw [hf]
        simp
      · simp [rbContents, contentsRaw]
      · simp
        omega
    · have h1 : 1 ≤ min data.length (ring_buffer_free_space_internal rb) :=
        le_min (by omega) (by omega)
      obtain ⟨buf2, head2, heq, hlen2, hh2, hcont⟩ :=
        writeLoop_spec rb.size data rb.buffer rb.head rb.tail
          (min data.length (ring_buffer_free_space_internal rb)) hlen hh ht h1
          (min_le_right _ _) (min_le_left _ _)
      have he : ring_buffer_write rb data
          = ({ rb with
               buffer := buf2, head := head2,
               overflow := if min data.length (ring_buffer_free_space_internal rb)
                   < data.length then true else rb.overflow },
             min data.length (ring_buffer_free_space_internal rb)) := by
        simp only [ring_buffer_write, if_neg hd, if_neg hf, heq]
      rw [he]
      refine ⟨⟨hlen2, hh2, ht⟩, rfl, rfl, rfl, hcont, ?_⟩
      by_cases hlt : min data.length (ring_buffer_free_space_internal rb) < data.length <;>
        simp [hlt]

/-- The read loop with nothing left to read returns immediately. -/
theorem readLoop_done (size : Nat) (buf : List Nat) (head tail read_count to_read : Nat)
    (out : List Nat) (h : ¬ read_count < to_read) :
    readLoop size buf head tail read_count to_read out = (out, tail, read_count) := by
  unfold readLoop
  rw [dif_neg h]

/-- One pass of the read loop with a nonzero contiguous chunk. -/
theorem readLoop_step (size : Nat) (buf : List Nat) (head tail read_count to_read : Nat)
    (out : List Nat) (h : read_count < to_read)
    (hc : ¬ readChunkSize size head tail = 0) :
    readLoop size buf head tail read_count to_read out =
      readLoop size buf head
        ((tail + min (readChunkSize size head tail) (to_read - read_count)) % size)
        (read_count + min (readChunkSize size head tail) (to_read - read_count))
        to_read
        (out ++ (buf.drop tail).take (min (readChunkSize size head tail) (to_read - read_count))) := by
  conv_lhs => rw [readLoop]
  rw [dif_pos h, dif_neg hc]

/-- The final pass of the read loop: the remaining bytes form one
contiguous chunk. -/
theorem readLoop_last (size : Nat) (buf : List Nat) (head tail read_count to_read : Nat)
    (out : List Nat) (h : read_count < to_read)
    (hcw : to_read - read_count ≤ readChunkSize size head tail) :
    readLoop size buf head tail read_count to_read out
      = (out ++ (buf.drop tail).take (to_read - read_count),
         (tail + (to_read - read_count)) % size, to_read) := by
  rw [readLoop_step size buf head tail read_count to_read out h (by omega),
    Nat.min_eq_right hcw,
    show read_count + (to_read - read_count) = to_read by omega,
    readLoop_done size buf head _ to_read to_read _ (by omega)]

/-- Complete behaviour of the read loop when invoked by ring_buffer_read:
it returns exactly the first `to_read` bytes of the queue contents and
advances the tail cursor past them, in at most two passes. -/
theorem readLoop_spec (size : Nat) (buf : List Nat) (head tail to_read : Nat)
    (hlen : buf.length = size) (hh : head < size) (ht : tail < size)
    (h1 : 1 ≤ to_read)
    (havail : to_read ≤ availRaw size head tail) :
    ∃ tail2,
      readLoop size buf head tail 0 to_read []
        = ((contentsRaw buf head tail).take to_read, tail2, to_read) ∧
      tail2 < size ∧
      contentsRaw buf head tail2 = (contentsRaw buf head tail).drop to_read := by
  have hdroplen : (buf.drop tail).length = size - tail := by
    rw [List.length_drop, hlen]
  by_cases hth : tail ≤ head
  · -- contiguous region: always a single pass
    have hav : availRaw size head tail = head - tail := by
      unfold availRaw
      rw [if_pos hth]
    have hch : readChunkSize size head tail = head - tail := by
      unfold readChunkSize
      rw [if_pos hth]
    have hmod : tail + to_read < size := by omega
    refine ⟨tail + to_read, ?_, by omega, ?_⟩
    · rw [readLoop_last size buf head tail 0 to_read [] (by omega) (by rw [hch]; omega),
        Nat.sub_zero, List.nil_append, Nat.mod_eq_of_lt hmod]
      unfold contentsRaw
      rw [if_pos hth, List.take_take, Nat.min_eq_left (by omega)]
    · unfold contentsRaw
      rw [if_pos hth, if_pos (show tail + to_read ≤ head by omega)]
      rw [List.drop_take, List.drop_drop,
        show head - tail - to_read = head - (tail + to_read) by omega]
  · have hav : availRaw size head tail = size - tail + head := by
      unfold availRaw
      rw [if_neg hth]
    have hch : readChunkSize size head tail = size - tail := by
      unfold readChunkSize
      rw [if_neg hth]
    by_cases hw1 : to_read ≤ size - tail
    · -- single pass inside the trailing segment
      refine ⟨(tail + to_read) % size, ?_, Nat.mod_lt _ (by omega), ?_⟩
      · rw [readLoop_last size buf head tail 0 to_read [] (by omega) (by rw [hch]; omega),
          Nat.sub_zero, List.nil_append]
        unfold contentsRaw
        rw [if_neg hth, List.take_append_eq_append_take, hdroplen,
          show to_read - (size - tail) = 0 by omega, List.take_zero, List.append_nil]
      · by_cases he : tail + to_read < size
        · rw [Nat.mod_eq_of_lt he]
          unfold contentsRaw
          rw [if_neg hth, if_neg (show ¬ tail + to_read ≤ head by omega)]
          rw [List.drop_append_eq_append_drop, hdroplen,
            show to_read - (size - tail) = 0 by omega, List.drop_zero,
            List.drop_drop]
        · have hsz : tail + to_read = size := by omega
          rw [hsz, Nat.mod_self]
          unfold contentsRaw
          rw [if_neg hth, if_pos (Nat.zero_le head)]
          rw [List.drop_append_eq_append_drop, hdroplen,
            show to_read - (size - tail) = 0 by omega, List.drop_zero,
            List.drop_drop, hsz,
            List.drop_of_length_le (le_of_eq hlen), List.nil_append,
            List.drop_zero, Nat.sub_zero]
    · -- wraps: trailing segment first, then from index 0
      set c1 := size - tail with hc1
      set c2 := to_read - c1 with hc2
      have hc1pos : 1 ≤ c1 := by omega
      have hc2pos : 1 ≤ c2 := by omega
      have hc2le : c2 ≤ head := by omega
      have hstep := readLoop_step size buf head tail 0 to_read [] (by omega)
        (by rw [hch]; omega)
      rw [hch, Nat.sub_zero, Nat.min_eq_left (show c1 ≤ to_read by omega),
        show tail + c1 = size by omega, Nat.mod_self, Nat.zero_add,
        List.nil_append, List.take_of_length_le (le_of_eq hdroplen)] at hstep
      have hch0 : readChunkSize size head 0 = head := by
        unfold readChunkSize
        rw [if_pos (Nat.zero_le head), Nat.sub_zero]
      have hlast := readLoop_last size buf head 0 c1 to_read (buf.drop tail)
        (by omega) (by rw [hch0]; omega)
      rw [List.drop_zero, Nat.zero_add] at hlast
      have htk : (buf.drop tail).take to_read = buf.drop tail :=
        List.take_of_length_le (by rw [hdroplen]; omega)
      have hdr : (buf.drop tail).drop to_read = [] :=
        List.drop_of_length_le (by rw [hdroplen]; omega)
      refine ⟨c2, ?_, by omega, ?_⟩
      · rw [hstep, hlast, Nat.mod_eq_of_lt (by omega)]
        unfold contentsRaw
        rw [if_neg hth, List.take_append_eq_append_take, hdroplen, htk,
          show to_read - (size - tail) = c2 by omega,
          List.take_take, Nat.min_eq_left hc2le]
      · unfold contentsRaw
        rw [if_neg hth, if_pos hc2le]
        rw [List.drop_append_eq_append_drop, hdroplen, hdr,
          show to_read - (size - tail) = c2 by omega, List.nil_append,
          List.drop_take]

/-- Full functional specification of ring_buffer_read on a well-formed
state: it returns exactly the first min(len, available) bytes of the queue
contents (FIFO) and removes them, touching neither the head cursor, the
byte array, nor the overflow flag. -/
theorem ring_buffer_read_spec (rb : RingBuffer) (len : Nat) (hwf : rbWF rb) :
    rbWF (ring_buffer_read rb len).1 ∧
    (ring_buffer_read rb len).1.size = rb.size ∧
    (ring_buffer_read rb len).1.head = rb.head ∧
    (ring_buffer_read rb len).1.buffer = rb.buffer ∧
    (ring_buffer_read rb len).1.overflow = rb.overflow ∧
    (ring_buffer_read rb len).2
      = (rbContents rb).take (min len (ring_buffer_available rb)) ∧
    rbContents (ring_buffer_read rb len).1
      = (rbContents rb).drop (ring_buffer_read rb len).2.length := by
  obtain ⟨hlen, hh, ht⟩ := hwf
  by_cases hl : len = 0
  · have he : ring_buffer_read rb len = (rb, []) := by
      unfold ring_buffer_read
      rw [if_pos hl]
    rw [he]
    refine ⟨⟨hlen, hh, ht⟩, rfl, rfl, rfl, rfl, ?_, by simp⟩
    rw [hl]
    simp
  · by_cases ha : ring_buffer_available rb = 0
    · have he : ring_buffer_read rb len = (rb, []) := by
        simp only [ring_buffer_read, if_neg hl, ha, if_pos rfl, eq_self_iff_true, if_true]
      have hc0 : rbContents rb = [] := by
        have := contentsRaw_length rb.buffer rb.size rb.head rb.tail hlen hh ht
        rw [show availRaw rb.size rb.head rb.tail = ring_buffer_available rb from rfl, ha] at this
        exact List.length_eq_zero.mp this
      rw [he, hc0]
      refine ⟨⟨hlen, hh, ht⟩, rfl, rfl, rfl, rfl, by simp, by simp⟩
    · have h1 : 1 ≤ min len (ring_buffer_available rb) := le_min (by omega) (by omega)
      obtain ⟨tail2, heq, ht2, hcont⟩ :=
        readLoop_spec rb.size rb.buffer rb.head rb.tail
          (min len (ring_buffer_available rb)) hlen hh ht h1 (min_le_right _ _)
      have he : ring_buffer_read rb len
          = ({ rb with tail := tail2 },
             (contentsRaw rb.buffer rb.head rb.tail).take
               (min len (ring_buffer_available rb))) := by
        simp only [ring_buffer_read, if_neg hl, if_neg ha, heq]
      rw [he]
      have houtlen : ((contentsRaw rb.buffer rb.head rb.tail).take
          (min len (ring_buffer_available rb))).length
          = min len (ring_buffer_available rb) := by
        rw [List.length_take]
        refine Nat.min_eq_left ?_
        rw [contentsRaw_length rb.buffer rb.size rb.head rb.tail hlen hh ht]
        exact min_le_right _ _
      exact ⟨⟨hlen, hh, ht2⟩, rfl, rfl, rfl, rfl, rfl, by rw [houtlen]; exact hcont⟩

/-- Invariant of a run of ring-buffer operations: the bytes handed out by
reads followed by what is still buffered equal what was buffered at the
start followed by the bytes accepted by writes.  Well-formedness and the
capacity are preserved. -/
theorem runOps_spec (ops : List RBOp) (rb : RingBuffer) (hwf : rbWF rb) :
    rbWF (runOps rb ops).1 ∧ (runOps rb ops).1.size = rb.size ∧
    (runOps rb ops).2.2 ++ rbContents (runOps rb ops).1
      = rbContents rb ++ (runOps rb ops).2.1 := by
  induction ops generalizing rb with
  | nil => exact ⟨hwf, rfl, by simp [runOps]⟩
  | cons op ops ih =>
    cases op with
    | write data =>
      obtain ⟨hwf2, hsz, _, _, hcont, _⟩ := ring_buffer_write_spec rb data hwf
      obtain ⟨ihwf, ihsz, ihapp⟩ := ih (ring_buffer_write rb data).1 hwf2
      refine ⟨ihwf, ihsz.trans hsz, ?_⟩
      simp only [runOps]
      rw [ihapp, hcont, List.append_assoc]
    | read len =>
      obtain ⟨hlen, hh, ht⟩ := hwf
      obtain ⟨hwf2, hsz, _, _, _, hout, hcont⟩ :=
        ring_buffer_read_spec rb len ⟨hlen, hh, ht⟩
      obtain ⟨ihwf, ihsz, ihapp⟩ := ih (ring_buffer_read rb len).1 hwf2
      refine ⟨ihwf, ihsz.trans hsz, ?_⟩
      simp only [runOps]
      rw [List.append_assoc, ihapp, ← List.append_assoc, hcont]
      have hcl : (rbContents rb).length = ring_buffer_available rb :=
        contentsRaw_length rb.buffer rb.size rb.head rb.tail hlen hh ht
      have houtlen : (ring_buffer_read rb len).2.length
          = min len (ring_buffer_available rb) := by
        rw [hout, List.length_take, hcl]
        exact Nat.min_eq_left (min_le_right _ _)
      rw [hout]
      have hql : ((rbContents rb).take (min len (ring_buffer_available rb))).length
          = min len (ring_buffer_available rb) := by
        rw [List.length_take, hcl]
        exact Nat.min_eq_left (min_le_right _ _)
      rw [hql, List.take_append_drop]

/-- C2: starting from the freshly initialized ring buffer, for every
sequence of writes and reads, the concatenation of the bytes returned by
the reads is a prefix of the concatenation of the bytes the writes
accepted (FIFO order), and available() equals total bytes written minus
total bytes read.  Quantifying over all operation sequences covers every
intermediate point of a longer run and every wrap-around pattern. -/
theorem ring_buffer_fifo (N : Nat) (hN : 0 < N) (ops : List RBOp) :
    (∃ t, (runOps (rbInit N) ops).2.1 = (runOps (rbInit N) ops).2.2 ++ t) ∧
    ring_buffer_available (runOps (rbInit N) ops).1
      = (runOps (rbInit N) ops).2.1.length - (runOps (rbInit N) ops).2.2.length ∧
    (runOps (rbInit N) ops).2.2.length ≤ (runOps (rbInit N) ops).2.1.length := by
  have hwf0 : rbWF (rbInit N) := by
    refine ⟨?_, hN, hN⟩
    simp [rbInit]
  have hc0 : rbContents (rbInit N) = [] := by
    simp [rbContents, contentsRaw, rbInit]
  obtain ⟨⟨hlen, hh, ht⟩, hsz, happ⟩ := runOps_spec ops (rbInit N) hwf0
  rw [hc0, List.nil_append] at happ
  have hcl : (rbContents (runOps (rbInit N) ops).1).length
      = ring_buffer_available (runOps (rbInit N) ops).1 :=
    contentsRaw_length _ _ _ _ hlen hh ht
  have hlens := congrArg List.length happ
  rw [List.length_append] at hlens
  exact ⟨⟨rbContents (runOps (rbInit N) ops).1, happ.symm⟩, by omega, by omega⟩

/-- C2 witness: a run on a 4-byte buffer that wraps: write 3 bytes, read
2, write 4 more (only 2 fit), read everything. -/
theorem ring_buffer_fifo_witness :
    (∃ t, (runOps (rbInit 4) [.write [1,2,3], .read 2, .write [4,5,6,7], .read 10]).2.1
      = (runOps (rbInit 4) [.write [1,2,3], .read 2, .write [4,5,6,7], .read 10]).2.2 ++ t) ∧
    ring_buffer_available (runOps (rbInit 4) [.write [1,2,3], .read 2, .write [4,5,6,7], .read 10]).1
      = (runOps (rbInit 4) [.write [1,2,3], .read 2, .write [4,5,6,7], .read 10]).2.1.length
        - (runOps (rbInit 4) [.write [1,2,3], .read 2, .write [4,5,6,7], .read 10]).2.2.length ∧
    (runOps (rbInit 4) [.write [1,2,3], .read 2, .write [4,5,6,7], .read 10]).2.2.length
      ≤ (runOps (rbInit 4) [.write [1,2,3], .read 2, .write [4,5,6,7], .read 10]).2.1.length :=
  ring_buffer_fifo 4 (by decide) [.write [1,2,3], .read 2, .write [4,5,6,7], .read 10]

/-- C9: the ring-buffer operations preserve well-formedness (head and tail
stay inside [0, N) and the byte array keeps its length), at most N-1 bytes
are ever readable, and available() + free_space() = N-1 at all times. -/
theorem rb_invariants (rb : RingBuffer) (data : List Nat) (len : Nat) (hwf : rbWF rb) :
    rbWF (ring_buffer_write rb data).1 ∧
    rbWF (ring_buffer_read rb len).1 ∧
    rbWF (ring_buffer_reset rb) ∧
    ring_buffer_available rb ≤ rb.size - 1 ∧
    ring_buffer_available rb + ring_buffer_free_space_internal rb = rb.size - 1 := by
  have h1 := (ring_buffer_write_spec rb data hwf).1
  have h2 := (ring_buffer_read_spec rb len hwf).1
  obtain ⟨hlen, hh, ht⟩ := hwf
  have hsum := freeSpaceRaw_add_availRaw rb.size rb.head rb.tail hh ht
  have e1 : ring_buffer_available rb = availRaw rb.size rb.head rb.tail := rfl
  have e2 : ring_buffer_free_space_internal rb
      = freeSpaceRaw rb.size rb.head rb.tail := rfl
  refine ⟨h1, h2, ⟨hlen, ?_, ?_⟩, by omega, by omega⟩
  · show (0 : Nat) < rb.size
    omega
  · show (0 : Nat) < rb.size
    omega

/-- C9 witness: the freshly initialized buffer of capacity 4. -/
theorem rb_invariants_witness :
    rbWF (ring_buffer_write (rbInit 4) [1, 2]).1 ∧
    rbWF (ring_buffer_read (rbInit 4) 1).1 ∧
    rbWF (ring_buffer_reset (rbInit 4)) ∧
    ring_buffer_available (rbInit 4) ≤ (rbInit 4).size - 1 ∧
    ring_buffer_available (rbInit 4) + ring_buffer_free_space_internal (rbInit 4)
      = (rbInit 4).size - 1 :=
  rb_invariants (rbInit 4) [1, 2] 1 ⟨by decide, by decide, by decide⟩

/-- A run of writes with no intervening reads: availability grows by the
sum of the returned counts, each returned count is bounded by the request,
the sticky overflow flag never clears, and any truncated write sets it. -/
theorem runWrites_spec (datas : List (List Nat)) (rb : RingBuffer) (hwf : rbWF rb) :
    rbWF (runWrites rb datas).1 ∧
    (runWrites rb datas).1.size = rb.size ∧
    (runWrites rb datas).2.length = datas.length ∧
    ring_buffer_available (runWrites rb datas).1
      = ring_buffer_available rb + (runWrites rb datas).2.sum ∧
    (∀ i, (runWrites rb datas).2.getD i 0 ≤ (datas.getD i []).length) ∧
    (rb.overflow = true → (runWrites rb datas).1.overflow = true) ∧
    ((∃ i, i < datas.length ∧
        (runWrites rb datas).2.getD i 0 < (datas.getD i []).length)
      → (runWrites rb datas).1.overflow = true) := by
  induction datas generalizing rb with
  | nil =>
    refine ⟨hwf, rfl, rfl, by simp [runWrites], ?_, fun h => h, ?_⟩
    · intro i
      simp [runWrites]
    · rintro ⟨i, hi, _⟩
      simp at hi
  | cons d ds ih =>
    obtain ⟨hlen, hh, ht⟩ := hwf
    obtain ⟨hwf2, hsz, htl, hw, hcont, hov⟩ :=
      ring_buffer_write_spec rb d ⟨hlen, hh, ht⟩
    obtain ⟨ihwf, ihsz, ihlen, ihav, ihbound, ihmono, ihtrunc⟩ :=
      ih (ring_buffer_write rb d).1 hwf2
    have hav1 : ring_buffer_available (ring_buffer_write rb d).1
        = ring_buffer_available rb + (ring_buffer_write rb d).2 := by
      have hc1 : (rbContents rb).length = ring_buffer_available rb :=
        contentsRaw_length rb.buffer rb.size rb.head rb.tail hlen hh ht
      obtain ⟨hlen2, hh2, ht2⟩ := hwf2
      have hc2 : (rbContents (ring_buffer_write rb d).1).length
          = ring_buffer_available (ring_buffer_write rb d).1 :=
        contentsRaw_length _ _ _ _ hlen2 hh2 ht2
      have := congrArg List.length hcont
      rw [List.length_append, hc1, hc2, List.length_take] at this
      have hwle : (ring_buffer_write rb d).2 ≤ d.length := by
        rw [hw]
        exact min_le_left _ _
      rw [Nat.min_eq_left hwle] at this
      exact this
    refine ⟨ihwf, ihsz.trans hsz, ?_, ?_, ?_, ?_, ?_⟩
    · simp only [runWrites, List.length_cons]
      rw [ihlen]
    · simp only [runWrites, List.sum_cons]
      rw [ihav, hav1]
      omega
    · intro i
      cases i with
      | zero =>
        simp only [runWrites, List.getD_cons_zero]
        rw [hw]
        exact min_le_left _ _
      | succ n =>
        simp only [runWrites, List.getD_cons_succ]
        exact ihbound n
    · intro h
      refine ihmono ?_
      rw [hov, h]
      simp
    · rintro ⟨i, hi, htr⟩
      cases i with
      | zero =>
        simp only [runWrites, List.getD_cons_zero] at htr
        refine ihmono ?_
        rw [hov]
        simp [htr]
      | succ n =>
        simp only [runWrites, List.getD_cons_succ, List.length_cons] at htr hi
        exact ihtrunc ⟨n, by omega, htr⟩

/-- The sticky overflow flag survives any further sequence of writes and
reads (only reset clears it). -/
theorem runOps_overflow_mono (ops : List RBOp) (rb : RingBuffer) (hwf : rbWF rb)
    (h : rb.overflow = true) : (runOps rb ops).1.overflow = true := by
  induction ops generalizing rb with
  | nil => exact h
  | cons op ops ih =>
    cases op with
    | write data =>
      obtain ⟨hwf2, _, _, _, _, hov⟩ := ring_buffer_write_spec rb data hwf
      refine ih (ring_buffer_write rb data).1 hwf2 ?_
      rw [hov, h]
      simp
    | read len =>
      obtain ⟨hwf2, _, _, _, hov, _, _⟩ := ring_buffer_read_spec rb len hwf
      exact ih (ring_buffer_read rb len).1 hwf2 (hov.trans h)

/-- Lists with pointwise-equal entries (via getD) and equal lengths have
equal sums; used to add up full (untruncated) writes. -/
theorem sum_eq_of_getD (b : List (List Nat)) (a : List Nat)
    (hl : a.length = b.length)
    (h : ∀ i, i < b.length → a.getD i 0 = (b.getD i []).length) :
    a.sum = (b.map List.length).sum := by
  induction b generalizing a with
  | nil =>
    rw [List.length_nil, List.length_eq_zero] at hl
    rw [hl]
    rfl
  | cons x b ih =>
    cases a with
    | nil => simp at hl
    | cons y a =>
      simp only [List.sum_cons, List.map_cons]
      have h0 := h 0 (by simp)
      simp only [List.getD_cons_zero] at h0
      rw [h0]
      have := ih a (by simpa using hl) (fun i hi => by
        have := h (i + 1) (by simpa using hi)
        simpa using this)
      omega

/-- C3: writing more than capacity-1 bytes in aggregate into the fresh
buffer, with no intervening reads, truncates some write (its returned
count is smaller than its requested length) and leaves overflow set; the
flag then stays set across any further writes and reads, and only reset()
clears it, after which available() is 0. -/
theorem overflow_flag_spec (N : Nat) (hN : 0 < N) (datas : List (List Nat))
    (hagg : N - 1 < (datas.map List.length).sum) :
    (∃ i, i < datas.length ∧
      (runWrites (rbInit N) datas).2.getD i 0 < (datas.getD i []).length) ∧
    (runWrites (rbInit N) datas).1.overflow = true ∧
    (∀ ops : List RBOp,
      (runOps (runWrites (rbInit N) datas).1 ops).1.overflow = true) ∧
    (ring_buffer_reset (runWrites (rbInit N) datas).1).overflow = false ∧
    ring_buffer_available (ring_buffer_reset (runWrites (rbInit N) datas).1) = 0 := by
  have hwf0 : rbWF (rbInit N) := by
    refine ⟨?_, hN, hN⟩
    simp [rbInit]
  obtain ⟨hwfe, hsz, hcnt, hav, hbound, hmono, htrunc⟩ :=
    runWrites_spec datas (rbInit N) hwf0
  have hav0 : ring_buffer_available (rbInit N) = 0 := by
    simp [ring_buffer_available, availRaw, rbInit]
  have havle : ring_buffer_available (runWrites (rbInit N) datas).1 ≤ N - 1 := by
    obtain ⟨hlen, hh, ht⟩ := hwfe
    have hs2 : (runWrites (rbInit N) datas).1.size = N := hsz.trans rfl
    have hsum := freeSpaceRaw_add_availRaw (runWrites (rbInit N) datas).1.size
      (runWrites (rbInit N) datas).1.head (runWrites (rbInit N) datas).1.tail hh ht
    have e1 : ring_buffer_available (runWrites (rbInit N) datas).1
        = availRaw (runWrites (rbInit N) datas).1.size
          (runWrites (rbInit N) datas).1.head (runWrites (rbInit N) datas).1.tail := rfl
    rw [hs2] at hsum e1
    omega
  have hex : ∃ i, i < datas.length ∧
      (runWrites (rbInit N) datas).2.getD i 0 < (datas.getD i []).length := by
    by_contra hall
    push_neg at hall
    have heq : (runWrites (rbInit N) datas).2.sum = (datas.map List.length).sum := by
      refine sum_eq_of_getD datas (runWrites (rbInit N) datas).2 hcnt (fun i hi => ?_)
      exact le_antisymm (hbound i) (hall i hi)
    rw [hav0, Nat.zero_add, heq] at hav
    omega
  refine ⟨hex, htrunc hex, fun ops => runOps_overflow_mono ops _ hwfe (htrunc hex),
    rfl, ?_⟩
  simp [ring_buffer_available, availRaw, ring_buffer_reset]

/-- C3 witness: capacity 4, two 2-byte writes (aggregate 4 > 3). -/
theorem overflow_flag_spec_witness :
    (∃ i, i < ([[1,2],[3,4]] : List (List Nat)).length ∧
      (runWrites (rbInit 4) [[1,2],[3,4]]).2.getD i 0
        < (([[1,2],[3,4]] : List (List Nat)).getD i []).length) ∧
    (runWrites (rbInit 4) [[1,2],[3,4]]).1.overflow = true ∧
    (∀ ops : List RBOp,
      (runOps (runWrites (rbInit 4) [[1,2],[3,4]]).1 ops).1.overflow = true) ∧
    (ring_buffer_reset (runWrites (rbInit 4) [[1,2],[3,4]]).1).overflow = false ∧
    ring_buffer_available (ring_buffer_reset (runWrites (rbInit 4) [[1,2],[3,4]]).1) = 0 :=
  overflow_flag_spec 4 (by decide) [[1,2],[3,4]] (by decide)
